import Mathlib

/-!
Verification of the Substack HTML→Markdown conversion scripts.

The definitions below are a shallow embedding of `scripts/parse_html.py`
(the conversion core) and `scripts/batch_by_quarter.py` (the quarterly
batcher).  A parsed HTML document is modelled as a tree of `Node`s
(mirroring the BeautifulSoup node structure the scripts traverse); Python
dictionaries are modelled as insertion-ordered association lists with
in-place overwrite; Python string truthiness, `str.strip`, substring tests
and the two regular-expression searches used by the scripts are modelled
explicitly.
-/

namespace Substack

/-- A parsed DOM node, as seen by BeautifulSoup traversal: either a text
node or an element with a tag name, a class list (the `class` attribute as
BeautifulSoup exposes it), the remaining attributes, and ordered children. -/
inductive Node where
  | text (s : String) : Node
  | elem (name : String) (classes : List String)
      (attrs : List (String × String)) (children : List Node) : Node

/-- Children of a node (a text node has none). -/
def Node.children : Node → List Node
  | .text _ => []
  | .elem _ _ _ cs => cs

/-- Python `element.name is not None`: true exactly on element nodes. -/
def Node.isElem : Node → Bool
  | .text _ => false
  | .elem _ _ _ _ => true

/-- Attribute lookup with a default, modelling `element.get(key, dflt)`. -/
def attrGet (attrs : List (String × String)) (key dflt : String) : String :=
  match attrs.find? (fun p => p.1 == key) with
  | some p => p.2
  | none => dflt

/-- `n.get(key, dflt)` on a node; text nodes have no attributes. -/
def Node.attr (n : Node) (key dflt : String) : String :=
  match n with
  | .text _ => dflt
  | .elem _ _ attrs _ => attrGet attrs key dflt

/-- Characters removed by Python `str.strip()` (ASCII whitespace). -/
def pySpace (c : Char) : Bool :=
  c = ' ' || c = '\t' || c = '\n' || c = '\r' || c = '\x0b' || c = '\x0c'

/-- Python `str.strip()`. -/
def pyStrip (s : String) : String :=
  String.mk (((s.toList.dropWhile pySpace).reverse.dropWhile pySpace).reverse)

/-- Python string truthiness (`if s:`): non-empty. -/
def strTruthy (s : String) : Bool := !s.isEmpty

/-- Python truthiness of a `str`-or-`None` value (`if result:`). -/
def optTruthy : Option String → Bool
  | none => false
  | some s => strTruthy s

/-- Is `lit` an initial segment of `cs`? -/
def litMatch : List Char → List Char → Bool
  | [], _ => true
  | _ :: _, [] => false
  | a :: as, b :: bs => a = b && litMatch as bs

/-- Python `needle in hay` substring test, on character lists. -/
def hasSub (needle : List Char) : List Char → Bool
  | [] => needle.isEmpty
  | c :: rest => litMatch needle (c :: rest) || hasSub needle rest

/-- Python `needle in hay` substring test on strings. -/
def hasSubStr (needle hay : String) : Bool := hasSub needle.toList hay.toList

/-- `re.search(lit + r'(\d+)', s)`: find the leftmost occurrence of the
literal `lit` that is followed by at least one digit and return the maximal
digit run after it (the regex group). -/
def searchNum (lit : List Char) : List Char → Option (List Char)
  | [] => none
  | c :: rest =>
    if litMatch lit (c :: rest) then
      let ds := ((c :: rest).drop lit.length).takeWhile Char.isDigit
      if ds.isEmpty then searchNum lit rest else some ds
    else searchNum lit rest

/-- Python `int` of a decimal digit string. -/
def digitsToNat (ds : List Char) : Nat :=
  ds.foldl (fun n c => n * 10 + (c.toNat - 48)) 0

mutual

/-- BeautifulSoup `get_text()` on a node: concatenation of all descendant
text. -/
def getAllText : Node → String
  | .text s => s
  | .elem _ _ _ cs => getAllTextList cs

/-- BeautifulSoup `get_text()` over a list of nodes, concatenated. -/
def getAllTextList : List Node → String
  | [] => ""
  | n :: rest => getAllText n ++ getAllTextList rest

end

/-- BeautifulSoup tag filter `find(name, class_=cls)`: element with the
given tag name whose class list contains `cls` (when given). -/
def nodeMatch (name : String) (cls : Option String) (n : Node) : Bool :=
  match n with
  | .text _ => false
  | .elem nm classes _ _ =>
    nm == name && (match cls with
                   | none => true
                   | some c => classes.contains c)

mutual

/-- BeautifulSoup `find`: first node in pre-order (the node itself, then
its descendants) satisfying `p`. -/
def findNode (p : Node → Bool) (n : Node) : Option Node :=
  match n with
  | .text s => if p (.text s) then some (.text s) else none
  | .elem nm cl a cs =>
    if p (.elem nm cl a cs) then some (.elem nm cl a cs) else findList p cs

/-- First match of `p` in a forest, scanned left to right in pre-order. -/
def findList (p : Node → Bool) : List Node → Option Node
  | [] => none
  | n :: rest =>
    match findNode p n with
    | some m => some m
    | none => findList p rest

end

/-- `element.find(name, class_=cls)`: search the element's descendants. -/
def Node.find (n : Node) (name : String) (cls : Option String) : Option Node :=
  findList (nodeMatch name cls) n.children

/-- The footnote registry `footnote_references`: a Python dict from the
footnote numeral to its rendered content, modelled as an insertion-ordered
association list with unique keys. -/
abbrev Reg := List (Nat × String)

/-- Python dict assignment `refs[k] = v`: overwrite in place when the key
exists (keeping its position, as dicts do), otherwise append. -/
def regInsert (refs : Reg) (k : Nat) (v : String) : Reg :=
  if (refs.map Prod.fst).contains k then
    refs.map (fun p => if p.1 == k then (p.1, v) else p)
  else refs ++ [(k, v)]

/-- Python dict lookup `refs[k]` (as an `Option`). -/
def regGet (refs : Reg) (k : Nat) : Option String :=
  match refs.find? (fun p => p.1 == k) with
  | some p => some p.2
  | none => none

/-- The literal part of the pattern `#footnote-(\d+)` used for in-text
footnote anchors. -/
def anchorPat : String := "#footnote-"

/-- The literal part of the pattern `footnote-anchor-(\d+)` used for
footnote definitions. -/
def defPat : String := "footnote-anchor-"

mutual

/-- `get_text_content(element, footnote_refs, counter)` from
`scripts/parse_html.py`: extract inline Markdown from an element. -/
def get_text_content (element : Node) (footnote_refs : Reg) (counter : Nat) :
    String :=
  match element with
  | .text s => pyStrip s
  | .elem _ _ _ cs => gtcChildren cs footnote_refs counter

/-- The child loop of `get_text_content`: render each child and
concatenate (`''.join(result)`). -/
def gtcChildren (cs : List Node) (refs : Reg) (counter : Nat) : String :=
  match cs with
  | [] => ""
  | c :: rest => inlineChild c refs counter ++ gtcChildren rest refs counter

/-- One iteration of the `get_text_content` child loop: the per-child
branches of the source.  Calls of the source on a child element of a known
shape (`get_text_content(child, ...)` inside the `em`/`strong`/fallback
branches) are unfolded one definitional step to the loop over that child's
children. -/
def inlineChild (child : Node) (refs : Reg) (counter : Nat) : String :=
  match child with
  | .text s => s
  | .elem nm cls attrs cs =>
    if nm == ("a") then
      if cls.contains ("footnote-anchor") then
        match searchNum anchorPat.toList (attrGet attrs ("href") ("")).toList with
        | some ds => "[^" ++ String.mk ds ++ "]"
        | none => ""
      else
        let href := attrGet attrs ("href") ("")
        let text := getAllTextList cs
        if strTruthy href && strTruthy text then
          "[" ++ text ++ "](" ++ href ++ ")"
        else text
    else if nm == ("em") then "*" ++ gtcChildren cs refs counter ++ "*"
    else if nm == ("strong") then "**" ++ gtcChildren cs refs counter ++ "**"
    else if nm == ("code") then "`" ++ getAllTextList cs ++ "`"
    else gtcChildren cs refs counter

end

/-- The `src`-rewriting block of `handle_image`: when a wrapping
`image-link` anchor exists, prefer its target per the
substackcdn/bucketeer rules (`if href and 'substackcdn.com' in href`,
`elif 'bucketeer' in src and href`), else keep the leaf's `src`. -/
def imageSrc (element : Node) (src : String) : String :=
  match findList (nodeMatch ("a") (some ("image-link"))) element.children with
  | some parent_link =>
    if strTruthy (parent_link.attr ("href") ("")) &&
        hasSubStr ("substackcdn.com") (parent_link.attr ("href") ("")) then
      parent_link.attr ("href") ("")
    else if hasSubStr ("bucketeer") src &&
        strTruthy (parent_link.attr ("href") ("")) then
      parent_link.attr ("href") ("")
    else src
  | none => src

/-- `handle_image(element)` from `scripts/parse_html.py`. -/
def handle_image (element : Node) : Option String :=
  match findList (nodeMatch ("img") none) element.children with
  | none => none
  | some img =>
    match findList (nodeMatch ("figcaption") none) element.children with
    | some caption =>
      match findList (nodeMatch ("a") none) caption.children with
      | some caption_link =>
        some ("![" ++ img.attr ("alt") ("") ++ "](" ++
          imageSrc element (img.attr ("src") ("")) ++ ")\n*[" ++
          getAllText caption_link ++ "](" ++ caption_link.attr ("href") ("") ++ ")*")
      | none =>
        some ("![" ++ img.attr ("alt") ("") ++ "](" ++
          imageSrc element (img.attr ("src") ("")) ++ ")\n*" ++
          getAllText caption ++ "*")
    | none =>
      some ("![" ++ img.attr ("alt") ("") ++ "](" ++
        imageSrc element (img.attr ("src") ("")) ++ ")")

/-- `handle_footnote_definition(element, footnote_refs, counter)` from
`scripts/parse_html.py`: parse a footnote-definition division and store its
content in the registry; always renders nothing. -/
def handle_footnote_definition (element : Node) (footnote_refs : Reg)
    (counter : Nat) : Option String × Reg :=
  match findList (nodeMatch ("a") (some ("footnote-number"))) element.children with
  | none => (none, footnote_refs)
  | some fn =>
    match searchNum defPat.toList ((fn.attr ("href") (""))).toList with
    | none => (none, footnote_refs)
    | some ds =>
      match findList (nodeMatch ("div") (some ("footnote-content"))) element.children with
      | none => (none, footnote_refs)
      | some content_elem =>
        (none, regInsert footnote_refs (digitsToNat ds)
          (pyStrip (get_text_content content_elem [] counter)))

/-- The blockquote branch of `process_element`: one `> `-prefixed line per
direct `p` child. -/
def blockquoteLines (cs : List Node) (refs : Reg) (counter : Nat) :
    List String :=
  cs.filterMap (fun c =>
    match c with
    | .text _ => none
    | .elem nm _ _ ccs =>
      if nm == ("p") then some ("> " ++ gtcChildren ccs refs counter)
      else none)

mutual

/-- `process_element(element, footnote_refs, counter)` from
`scripts/parse_html.py`: render one block-level node, returning the
rendered block (or `none`) together with the registry after the in-place
mutations performed during the call.  As in `inlineChild`, calls of the
source of the form `get_text_content(element, ...)` on the element at hand
are unfolded one definitional step to `gtcChildren` on its children. -/
def process_element (element : Node) (footnote_refs : Reg) (counter : Nat) :
    Option String × Reg :=
  match element with
  | .text s =>
    let text := pyStrip s
    (if strTruthy text then some text else none, footnote_refs)
  | .elem nm cls attrs cs =>
    if nm == ("h1") then
      (some ("# " ++ gtcChildren cs footnote_refs counter), footnote_refs)
    else if nm == ("h2") then
      (some ("## " ++ gtcChildren cs footnote_refs counter), footnote_refs)
    else if nm == ("h3") then
      (some ("### " ++ gtcChildren cs footnote_refs counter), footnote_refs)
    else if nm == ("p") then
      (some (gtcChildren cs footnote_refs counter), footnote_refs)
    else if nm == ("blockquote") then
      (some (String.intercalate ("\n") (blockquoteLines cs footnote_refs counter)),
        footnote_refs)
    else if nm == ("div") then
      if cls.contains ("captioned-image-container") then
        (handle_image (.elem nm cls attrs cs), footnote_refs)
      else if cls.contains ("footnote") then
        handle_footnote_definition (.elem nm cls attrs cs) footnote_refs counter
      else
        (if (processDivChildren cs footnote_refs counter).1.isEmpty then none
         else some (String.intercalate ("\n\n")
           (processDivChildren cs footnote_refs counter).1),
          (processDivChildren cs footnote_refs counter).2)
    else (none, footnote_refs)

/-- The child loop of the plain-division branch of `process_element`:
process each element child in order (the registry mutations thread through
the loop, the counter is not updated inside it) and keep the truthy
results. -/
def processDivChildren (cs : List Node) (refs : Reg) (counter : Nat) :
    List String × Reg :=
  match cs with
  | [] => ([], refs)
  | c :: rest =>
    if c.isElem then
      ((if optTruthy (process_element c refs counter).1
          then [(process_element c refs counter).1.getD ("")] else []) ++
        (processDivChildren rest (process_element c refs counter).2 counter).1,
       (processDivChildren rest (process_element c refs counter).2 counter).2)
    else processDivChildren rest refs counter

end

/-- The top-level loop of `convert_html_to_markdown`: walk the root's
children, skip text nodes, append truthy results, and recompute the
footnote counter (`len(footnote_references) + 1`) after each appended
block. -/
def convertLoop (nodes : List Node) (lines : List String) (refs : Reg)
    (counter : Nat) : List String × Reg :=
  match nodes with
  | [] => (lines, refs)
  | n :: rest =>
    if n.isElem then
      if optTruthy (process_element n refs counter).1 then
        convertLoop rest (lines ++ [(process_element n refs counter).1.getD ("")])
          (process_element n refs counter).2
          ((process_element n refs counter).2.length + 1)
      else convertLoop rest lines (process_element n refs counter).2 counter
    else convertLoop rest lines refs counter

/-- The header block of `convert_html_to_markdown`: title, optional
subtitle, and a `---` separator, emitted only when the title is truthy. -/
def headerLines (title subtitle : Option String) : List String :=
  match title with
  | none => []
  | some t =>
    if strTruthy t then
      ["# " ++ t] ++
        (match subtitle with
         | none => []
         | some st => if strTruthy st then ["*" ++ st ++ "*"] else []) ++
        ["---"]
    else []

/-- The keys of the registry in the order Python `sorted` yields them. -/
def sortedKeys (refs : Reg) : List Nat :=
  List.insertionSort (fun a b => a ≤ b) (refs.map Prod.fst)

/-- The footnote block appended at the end of the document when the
registry is non-empty: the separator line (note the extra newlines the
source puts inside this block) followed by one formatted entry per key in
ascending order. -/
def footnoteBlock (refs : Reg) : List String :=
  ("\n---\n") ::
    (sortedKeys refs).map
      (fun k => "[^" ++ toString k ++ "]: " ++ (regGet refs k).getD (""))

/-- `convert_html_to_markdown` with the initial footnote counter exposed
as a parameter (the source starts it at `1`). -/
def convertAux (children : List Node) (title subtitle : Option String)
    (counter : Nat) : String :=
  pyStrip (String.intercalate ("\n\n")
    (if ((convertLoop children (headerLines title subtitle) [] counter).2).isEmpty
     then (convertLoop children (headerLines title subtitle) [] counter).1
     else (convertLoop children (headerLines title subtitle) [] counter).1 ++
       footnoteBlock ((convertLoop children (headerLines title subtitle) [] counter).2)))

/-- `convert_html_to_markdown(html_content, title, subtitle)` from
`scripts/parse_html.py`, with the parsed top-level node list standing for
`soup.children`. -/
def convert_html_to_markdown (children : List Node)
    (title subtitle : Option String) : String :=
  convertAux children title subtitle 1

/-- The lines list produced for a document (header, blocks, footnotes). -/
def docRefs (children : List Node) (title subtitle : Option String) : Reg :=
  (convertLoop children (headerLines title subtitle) [] 1).2

/-- The blocks accumulated for a document before the footnote block. -/
def docLines (children : List Node) (title subtitle : Option String) :
    List String :=
  (convertLoop children (headerLines title subtitle) [] 1).1

/-- Stated from the spec's words, for comparison with `handle_image`: the
three-branch resolved-source rule.  `wrapTarget` is the wrapping
image-link's target when such a link exists. -/
def specResolvedSrc (wrapTarget : Option String) (leafSrc : String) : String :=
  match wrapTarget with
  | none => leafSrc
  | some t =>
    if hasSubStr ("substackcdn.com") t then t
    else if hasSubStr ("bucketeer") leafSrc && strTruthy t then t
    else leafSrc

/-- Does a string start and end with a non-whitespace character (or is it
empty)?  This is the "no leading or trailing whitespace" check. -/
def noEdgeWS (s : String) : Bool :=
  (match s.toList.head? with
   | none => true
   | some c => !pySpace c) &&
  (match s.toList.getLast? with
   | none => true
   | some c => !pySpace c)

/-- The sorted-entries property of the trailing footnote block: the sorted
key list is strictly ascending, is a permutation of the registry's keys,
and the whole conversion output is the stripped blank-line join of the
accumulated blocks followed by the separator block and one formatted entry
per sorted key. -/
def footnotesSortedProp (children : List Node) (t s : Option String) : Prop :=
  List.Sorted (fun a b => a < b) (sortedKeys (docRefs children t s)) ∧
  (sortedKeys (docRefs children t s)).Perm ((docRefs children t s).map Prod.fst) ∧
  convert_html_to_markdown children t s =
    pyStrip (String.intercalate ("\n\n")
      (docLines children t s ++ footnoteBlock (docRefs children t s)))

/-! ### The quarterly batcher, from `scripts/batch_by_quarter.py` -/

/-- One row of `posts.csv` as `batch_by_quarter.py` reads it. -/
structure PostRow where
  post_id : String
  post_date : String
  title : String

/-- The year field of an ISO date string (`datetime.fromisoformat`,
modelled for ISO-shaped strings by reading the four year digits). -/
def dateYear (s : String) : Nat := digitsToNat (s.toList.take 4)

/-- The month field of an ISO date string (the two digits after the first
dash). -/
def dateMonth (s : String) : Nat := digitsToNat ((s.toList.drop 5).take 2)

/-- `get_quarter(date_string)` from `scripts/batch_by_quarter.py`:
`f"{date.year}-Q{(date.month - 1) // 3 + 1}"`. -/
def get_quarter (date_string : String) : String :=
  toString (dateYear date_string) ++ "-Q" ++
    toString ((dateMonth date_string - 1) / 3 + 1)

/-- The quarter-keyed buckets (`defaultdict(list)`), modelled as an
insertion-ordered association list. -/
abbrev Buckets := List (String × List PostRow)

/-- `posts_by_quarter[quarter].append(row)` on a `defaultdict(list)`:
append to the existing bucket, or create a new one at the end. -/
def addToBucket (bs : Buckets) (q : String) (r : PostRow) : Buckets :=
  if (bs.map Prod.fst).contains q then
    bs.map (fun p => if p.1 == q then (p.1, p.2 ++ [r]) else p)
  else bs ++ [(q, [r])]

/-- The reading loop of `load_posts_by_quarter`: place each row in its
quarter's bucket in encounter order. -/
def groupRows (rows : List PostRow) : Buckets :=
  rows.foldl (fun bs r => addToBucket bs (get_quarter r.post_date) r) []

/-- `load_posts_by_quarter(csv_path)`: group rows by quarter, then sort
each bucket ascending by `post_date` (Python's stable `list.sort` with the
date string as key, modelled by stable insertion sort). -/
def load_posts_by_quarter (rows : List PostRow) : Buckets :=
  (groupRows rows).map
    (fun p => (p.1, List.insertionSort (fun a b => a.post_date ≤ b.post_date) p.2))

/-- All rows filed under quarter `q` (a bucket lookup; buckets built by
`addToBucket` have unique keys, so this is the single bucket for `q`). -/
def bucketGet (bs : Buckets) (q : String) : List PostRow :=
  ((bs.filter (fun p => p.1 == q)).map Prod.snd).flatten

/-- The `"=" * 80` separator line of `batch_by_quarter.py`. -/
def eqSep : String := String.mk (List.replicate 80 ('='))

/-- The separator written between consecutive posts of a quarter file. -/
def postSep : String := "\n\n" ++ eqSep ++ "\n\n"

/-- The post-writing loop of `main` in `batch_by_quarter.py` (with every
markdown file present): `enumerate(posts, 1)`, writing the separator
before every post but the first. -/
def writePosts : List String → Nat → String
  | [], _ => ""
  | c :: rest, i => (if 1 < i then postSep else "") ++ c ++ writePosts rest (i + 1)

/-- Sequence of strings concatenated with `postSep` between consecutive
entries. -/
def sepJoin : List String → String
  | [] => ""
  | [c] => c
  | c :: c2 :: rest => c ++ postSep ++ sepJoin (c2 :: rest)

/-- The fixed header `main` writes at the top of a quarter file. -/
def quarterHeader (q : String) (n : Nat) : String :=
  "# Posts from " ++ q ++ "\n\n" ++ "This file contains " ++ toString n ++
    " posts from " ++ q ++ ".\n\n" ++ eqSep ++ "\n\n"

/-- The full content of one quarter's output file, given the markdown
content of each post id. -/
def quarterFile (q : String) (posts : List PostRow) (content : String → String) :
    String :=
  quarterHeader q posts.length ++ writePosts (posts.map (fun r => content r.post_id)) 1

instance : IsTotal PostRow (fun a b => a.post_date ≤ b.post_date) :=
  ⟨fun a b => le_total a.post_date b.post_date⟩

instance : IsTrans PostRow (fun a b => a.post_date ≤ b.post_date) :=
  ⟨fun _ _ _ hab hbc => le_trans hab hbc⟩

/-! ### Concrete documents used as witnesses and counterexamples -/

/-- A paragraph reading `Hello`. -/
def exPara : Node := .elem ("p") [] [] [.text ("Hello")]

/-- A footnote-definition division with the given number link target and
content text. -/
def mkFnDiv (href content : String) : Node :=
  .elem ("div") [("footnote")] []
    [.elem ("a") [("footnote-number")] [(("href"), href)] [.text ("1")],
     .elem ("div") [("footnote-content")] []
       [.elem ("p") [] [] [.text content]]]

/-- Footnote definitions encountered in the order 3, 1, 2, 10. -/
def exDocC1 : List Node :=
  [exPara,
   mkFnDiv ("#footnote-anchor-3") ("three"),
   mkFnDiv ("#footnote-anchor-1") ("one"),
   mkFnDiv ("#footnote-anchor-2") ("two"),
   mkFnDiv ("#footnote-anchor-10") ("ten")]

/-- A paragraph plus a single footnote definition for numeral 1. -/
def exDocC6 : List Node :=
  [exPara, mkFnDiv ("#footnote-anchor-1") ("Note text")]

/-- An image container whose image leaf points at an interim-storage URL
while the wrapping image-link points at the content-delivery host. -/
def exImgDiv : Node :=
  .elem ("div") [("captioned-image-container")] []
    [.elem ("a") [("image-link")]
      [(("href"), ("https://substackcdn.com/image.png"))]
      [.elem ("img") []
        [(("src"), ("https://bucketeer-e05bbc84.s3.amazonaws.com/img.png")),
         (("alt"), (""))] []]]

/-- The image leaf inside `exImgDiv`. -/
def exImgLeaf : Node :=
  .elem ("img") []
    [(("src"), ("https://bucketeer-e05bbc84.s3.amazonaws.com/img.png")),
     (("alt"), (""))] []

/-- A footnote-definition division with an extractable numeral but no
footnote-content sub-division. -/
def exFnNoContent : Node :=
  .elem ("div") [("footnote")] []
    [.elem ("a") [("footnote-number")] [(("href"), ("#footnote-anchor-1"))]
      [.text ("1")]]

/-- The footnote-content division inside `mkFnDiv ... ("Note text")`. -/
def exFnContent : Node :=
  .elem ("div") [("footnote-content")] [] [.elem ("p") [] [] [.text ("Note text")]]

/-- The footnote-number link inside `mkFnDiv ("#footnote-anchor-1") ...`. -/
def exFnNumLink : Node :=
  .elem ("a") [("footnote-number")] [(("href"), ("#footnote-anchor-1"))]
    [.text ("1")]

/-- A footnote anchor whose target matches the numeral pattern. -/
def exAnchorGood : Node :=
  .elem ("a") [("footnote-anchor")] [(("href"), ("#footnote-7"))] [.text ("7")]

/-- A footnote anchor whose target does not match the numeral pattern. -/
def exAnchorBad : Node :=
  .elem ("a") [("footnote-anchor")] [(("href"), ("#fn-7"))] [.text ("7")]

/-- Is this node a `p` element (`child.name == 'p'`)? -/
def isPElem : Node → Bool
  | .text _ => false
  | .elem nm _ _ _ => nm == ("p")

/-! ### Helper lemmas -/

theorem dropWhile_head_not (p : Char → Bool) :
    ∀ (l : List Char) (c : Char), (l.dropWhile p).head? = some c → p c = false := by
  intro l
  induction l with
  | nil => intro c h; simp [List.dropWhile] at h
  | cons x xs ih =>
    intro c h
    rw [List.dropWhile_cons] at h
    by_cases hp : p x
    · rw [if_pos hp] at h; exact ih c h
    · rw [if_neg hp] at h
      simp only [List.head?_cons, Option.some.injEq] at h
      subst h
      simpa using hp

theorem dropWhile_getLast (p : Char → Bool) :
    ∀ (l : List Char), l.dropWhile p ≠ [] → (l.dropWhile p).getLast? = l.getLast? := by
  intro l
  induction l with
  | nil => intro h; simp [List.dropWhile] at h
  | cons x xs ih =>
    intro h
    rw [List.dropWhile_cons] at h ⊢
    by_cases hp : p x
    · rw [if_pos hp] at h ⊢
      have hxs : xs ≠ [] := by
        intro he; subst he; simp [List.dropWhile] at h
      rcases xs with _ | ⟨y, ys⟩
      · exact absurd rfl hxs
      · rw [ih h, List.getLast?_cons_cons]
    · rw [if_neg hp]

theorem pyStrip_noEdge (s : String) : noEdgeWS (pyStrip s) = true := by
  have hlist : (pyStrip s).toList
      = ((s.toList.dropWhile pySpace).reverse.dropWhile pySpace).reverse := rfl
  unfold noEdgeWS
  rw [hlist]
  rcases hB : (s.toList.dropWhile pySpace).reverse.dropWhile pySpace with _ | ⟨b, bs⟩
  · simp
  · rw [← hB]
    have hBne : (s.toList.dropWhile pySpace).reverse.dropWhile pySpace ≠ [] := by
      rw [hB]; simp
    rw [List.head?_reverse, List.getLast?_reverse]
    have h1 : ∀ c, ((s.toList.dropWhile pySpace).reverse.dropWhile pySpace).head? = some c →
        pySpace c = false := fun c h => dropWhile_head_not pySpace _ c h
    have h2 : ((s.toList.dropWhile pySpace).reverse.dropWhile pySpace).getLast?
        = (s.toList.dropWhile pySpace).reverse.getLast? := dropWhile_getLast pySpace _ hBne
    rw [h2, List.getLast?_reverse]
    have h3 : ∀ c, (s.toList.dropWhile pySpace).head? = some c → pySpace c = false :=
      fun c h => dropWhile_head_not pySpace _ c h
    rcases hh : (s.toList.dropWhile pySpace).head? with _ | c
    · -- then the dropWhile is empty, contradicting hBne
      exfalso
      apply hBne
      have : s.toList.dropWhile pySpace = [] := by
        rcases hd : s.toList.dropWhile pySpace with _ | ⟨d, ds⟩
        · rfl
        · rw [hd] at hh; simp at hh
      rw [this]
      simp [List.dropWhile]
    · have hhb : ((s.toList.dropWhile pySpace).reverse.dropWhile pySpace).head? = some b := by
        rw [hB]; rfl
      rw [hhb]
      simp [h3 c hh, h1 b hhb]

theorem regInsert_map_fst (refs : Reg) (k : Nat) (v : String) :
    (regInsert refs k v).map Prod.fst =
      if (refs.map Prod.fst).contains k then refs.map Prod.fst
      else refs.map Prod.fst ++ [k] := by
  unfold regInsert
  split
  · next h =>
    rw [List.map_map]
    refine List.map_eq_map_iff.mpr ?_
    intro p _
    simp only [Function.comp_apply]
    split <;> rfl
  · next h => simp

theorem regInsert_nodup (refs : Reg) (k : Nat) (v : String)
    (h : (refs.map Prod.fst).Nodup) :
    ((regInsert refs k v).map Prod.fst).Nodup := by
  rw [regInsert_map_fst]
  split
  · exact h
  · next hc =>
    have hk : k ∉ refs.map Prod.fst := by
      intro hm
      exact hc (List.elem_iff.mpr hm)
    simp [List.nodup_append, h, hk]

theorem find?_regInsert_overwrite (k : Nat) (v : String) :
    ∀ (refs : Reg),
      (refs.map (fun p => if p.1 == k then (p.1, v) else p)).find? (fun p => p.1 == k)
        = (refs.find? (fun p => p.1 == k)).map (fun p => (p.1, v)) := by
  intro refs
  induction refs with
  | nil => rfl
  | cons x xs ih =>
    rw [List.map_cons]
    by_cases hx : (x.1 == k) = true
    · have hfx : ((if (x.1 == k) = true then (x.1, v) else x).1 == k) = true := by
        rw [if_pos hx]; exact hx
      rw [@List.find?_cons_of_pos (Nat × String) (fun p => p.1 == k) _ _ hfx,
        @List.find?_cons_of_pos (Nat × String) (fun p => p.1 == k) _ _ hx, if_pos hx]
      rfl
    · have hfx : ¬ ((if (x.1 == k) = true then (x.1, v) else x).1 == k) = true := by
        rw [if_neg hx]; exact hx
      rw [@List.find?_cons_of_neg (Nat × String) (fun p => p.1 == k) _ _ hfx,
        @List.find?_cons_of_neg (Nat × String) (fun p => p.1 == k) _ _ hx, ih]

theorem regGet_regInsert_self (refs : Reg) (k : Nat) (v : String) :
    regGet (regInsert refs k v) k = some v := by
  by_cases hc : (refs.map Prod.fst).contains k = true
  · unfold regInsert
    rw [if_pos hc]
    unfold regGet
    rw [find?_regInsert_overwrite]
    have hmem : k ∈ refs.map Prod.fst := List.elem_iff.mp hc
    rcases List.mem_map.mp hmem with ⟨p, hp, hpk⟩
    rcases hf : refs.find? (fun p => p.1 == k) with _ | q
    · rw [List.find?_eq_none] at hf
      exact absurd (show (p.1 == k) = true by simp [hpk]) (hf p hp)
    · rw [hf]
      rfl
  · unfold regInsert
    rw [if_neg hc]
    unfold regGet
    rw [List.find?_append]
    have hnone : refs.find? (fun p => p.1 == k) = none := by
      rw [List.find?_eq_none]
      intro p hp hpk
      apply hc
      apply List.elem_iff.mpr
      exact List.mem_map.mpr ⟨p, hp, by simpa using hpk⟩
    rw [hnone]
    simp [List.find?_cons]

theorem regGet_regInsert_ne (refs : Reg) (k : Nat) (v : String) (m : Nat)
    (h : m ≠ k) : regGet (regInsert refs k v) m = regGet refs m := by
  by_cases hc : (refs.map Prod.fst).contains k = true
  · unfold regInsert
    rw [if_pos hc]
    unfold regGet
    have : ∀ (rs : Reg),
        (rs.map (fun p => if p.1 == k then (p.1, v) else p)).find? (fun p => p.1 == m)
          = rs.find? (fun p => p.1 == m) := by
      intro rs
      induction rs with
      | nil => rfl
      | cons x xs ih =>
        rw [List.map_cons]
        by_cases hm : (x.1 == m) = true
        · have hx : ¬ (x.1 == k) = true := by
            have hxm : x.1 = m := by simpa using hm
            simp [hxm, h]
          rw [if_neg hx, @List.find?_cons_of_pos (Nat × String) (fun p => p.1 == m) _ _ hm,
            @List.find?_cons_of_pos (Nat × String) (fun p => p.1 == m) _ _ hm]
        · have hfm : ¬ ((if (x.1 == k) = true then (x.1, v) else x).1 == m) = true := by
            split <;> simpa using hm
          rw [@List.find?_cons_of_neg (Nat × String) (fun p => p.1 == m) _ _ hfm,
            @List.find?_cons_of_neg (Nat × String) (fun p => p.1 == m) _ _ hm, ih]
    rw [this]
  · unfold regInsert
    rw [if_neg hc]
    unfold regGet
    rw [List.find?_append]
    have hone : ([(k, v)] : Reg).find? (fun p => p.1 == m) = none := by
      rw [List.find?_eq_none]
      intro x hx
      simp only [List.mem_singleton] at hx
      subst hx
      simpa using Ne.symm h
    rw [hone]
    rcases hf : refs.find? (fun p => p.1 == m) with _ | q <;> rw [hf] <;> rfl

theorem gtcChildren_ign :
    ∀ (cs : List Node) (refs : Reg) (k : Nat),
      gtcChildren cs refs k = gtcChildren cs [] 0 := by
  have H := gtcChildren.induct
    (fun cs refs k => gtcChildren cs refs k = gtcChildren cs [] 0)
    (fun c refs k => inlineChild c refs k = inlineChild c [] 0)
  intro cs refs k
  apply H <;> intros <;> simp_all [gtcChildren, inlineChild]

theorem inlineChild_ign (c : Node) (refs : Reg) (k : Nat) :
    inlineChild c refs k = inlineChild c [] 0 := by
  have H := inlineChild.induct
    (fun cs refs k => gtcChildren cs refs k = gtcChildren cs [] 0)
    (fun c refs k => inlineChild c refs k = inlineChild c [] 0)
  apply H <;> intros <;> simp_all [gtcChildren, inlineChild]

theorem get_text_content_ign (e : Node) (refs : Reg) (k : Nat) :
    get_text_content e refs k = get_text_content e [] 0 := by
  cases e with
  | text s => rfl
  | elem nm cls attrs cs =>
    show gtcChildren cs refs k = gtcChildren cs [] 0
    exact gtcChildren_ign cs refs k

theorem hfd_refs (e : Node) (refs : Reg) (k : Nat) :
    (handle_footnote_definition e refs k).2 = refs ∨
      ∃ n v, (handle_footnote_definition e refs k).2 = regInsert refs n v := by
  unfold handle_footnote_definition
  split
  · exact Or.inl rfl
  · split
    · exact Or.inl rfl
    · split
      · exact Or.inl rfl
      · exact Or.inr ⟨_, _, rfl⟩

theorem hfd_ign (e : Node) (refs : Reg) (k : Nat) :
    handle_footnote_definition e refs k = handle_footnote_definition e refs 0 := by
  unfold handle_footnote_definition
  split
  · rfl
  · split
    · rfl
    · split
      · rfl
      · rw [get_text_content_ign]

theorem pe_preserve :
    ∀ (e : Node) (refs : Reg) (k : Nat) (P : Reg → Prop),
      (∀ r n v, P r → P (regInsert r n v)) → P refs →
        P ((process_element e refs k).2) := by
  have H := process_element.induct
    (fun e refs k => ∀ (P : Reg → Prop),
      (∀ r n v, P r → P (regInsert r n v)) → P refs →
        P ((process_element e refs k).2))
    (fun cs refs k => ∀ (P : Reg → Prop),
      (∀ r n v, P r → P (regInsert r n v)) → P refs →
        P ((processDivChildren cs refs k).2))
  intro e refs k
  apply H <;> clear H e refs k <;> intros <;>
    simp_all [process_element, processDivChildren]
  · rename_i P hc hi
    rcases hfd_refs _ _ _ with h | ⟨n, v, h⟩ <;> rw [h]
    · exact hi
    · exact hc _ n v hi
  · rename_i ih1 ih2 P hc hi
    exact ih2 P hc (ih1 P hc hi)

theorem pe_counter_ign :
    ∀ (e : Node) (refs : Reg) (k : Nat),
      process_element e refs k = process_element e refs 0 := by
  have H := process_element.induct
    (fun e refs k => process_element e refs k = process_element e refs 0)
    (fun cs refs k => processDivChildren cs refs k = processDivChildren cs refs 0)
  intro e refs k
  apply H <;> intros <;>
    simp_all [process_element, processDivChildren, gtcChildren_ign, hfd_ign,
      blockquoteLines, get_text_content_ign]

theorem pe_nodup (e : Node) (refs : Reg) (k : Nat)
    (h : (refs.map Prod.fst).Nodup) :
    (((process_element e refs k).2).map Prod.fst).Nodup :=
  pe_preserve e refs k (fun r => (r.map Prod.fst).Nodup)
    (fun r n v hr => regInsert_nodup r n v hr) h

theorem convertLoop_nodup :
    ∀ (nodes : List Node) (lines : List String) (refs : Reg) (k : Nat),
      (refs.map Prod.fst).Nodup →
        (((convertLoop nodes lines refs k).2).map Prod.fst).Nodup := by
  intro nodes
  induction nodes with
  | nil => intro lines refs k h; exact h
  | cons n rest ih =>
    intro lines refs k h
    simp only [convertLoop]
    by_cases he : n.isElem = true
    · rw [if_pos he]
      by_cases ht : optTruthy (process_element n refs k).1 = true
      · rw [if_pos ht]; exact ih _ _ _ (pe_nodup n refs k h)
      · rw [if_neg ht]; exact ih _ _ _ (pe_nodup n refs k h)
    · rw [if_neg he]; exact ih _ _ _ h

theorem convertLoop_counter :
    ∀ (nodes : List Node) (lines : List String) (refs : Reg) (k k' : Nat),
      convertLoop nodes lines refs k = convertLoop nodes lines refs k' := by
  intro nodes
  induction nodes with
  | nil => intros; rfl
  | cons n rest ih =>
    intro lines refs k k'
    simp only [convertLoop]
    by_cases he : n.isElem = true
    · rw [if_pos he, if_pos he, pe_counter_ign n refs k, pe_counter_ign n refs k']
      by_cases ht : optTruthy (process_element n refs 0).1 = true
      · rw [if_pos ht, if_pos ht]
      · rw [if_neg ht, if_neg ht]; exact ih _ _ _ _
    · rw [if_neg he, if_neg he]; exact ih _ _ _ _

/-! ### Claim theorems -/

/-- C7: the produced Markdown is independent of the footnote-counter value
threaded through the recursion: converting the same tree with any two
counter values yields the identical output string (footnote numerals come
only from target-reference patterns, never from the counter). -/
theorem C7_counter_independent :
    (∀ (children : List Node) (t s : Option String) (k k' : Nat),
      convertAux children t s k = convertAux children t s k') ∧
    (∀ (e : Node) (refs : Reg) (k k' : Nat),
      process_element e refs k = process_element e refs k') ∧
    (∀ (e : Node) (refs refs' : Reg) (k k' : Nat),
      get_text_content e refs k = get_text_content e refs' k') := by
  refine ⟨?_, ?_, ?_⟩
  · intro children t s k k'
    unfold convertAux
    rw [convertLoop_counter children (headerLines t s) [] k k']
  · intro e refs k k'
    exact (pe_counter_ign e refs k).trans (pe_counter_ign e refs k').symm
  · intro e refs refs' k k'
    exact (get_text_content_ign e refs k).trans (get_text_content_ign e refs' k').symm

/-- C8: conversion is deterministic: for a fixed (tree, title, subtitle)
input, running the conversion twice yields identical output (the embedded
conversion is a pure function of its arguments). -/
theorem C8_deterministic :
    ∀ (children : List Node) (t s : Option String),
      convert_html_to_markdown children t s = convert_html_to_markdown children t s :=
  fun _ _ _ => rfl

/-- C10: when the title is absent no header block is emitted at all: the
header line list is empty and the output does not depend on the subtitle,
so a subtitle can only appear together with a title. -/
theorem C10_no_title_no_header :
    ∀ (children : List Node) (s : Option String),
      headerLines none s = [] ∧
      convert_html_to_markdown children none s
        = convert_html_to_markdown children none none :=
  fun _ _ => ⟨rfl, rfl⟩

/-- C6 (corrected): the output never has leading or trailing whitespace
and blocks are joined with one blank line, but the footnote separator
block is the three-line string starting and ending in a newline, so the
`---` line before the footnotes is set off from its neighbours by two
blank lines, not one. -/
theorem C6_output_shape :
    (∀ (children : List Node) (t s : Option String),
      noEdgeWS (convert_html_to_markdown children t s) = true) ∧
    (∀ (refs : Reg), (footnoteBlock refs).head? = some ("\n---\n")) ∧
    convert_html_to_markdown exDocC6 none none
      = "Hello\n\n\n---\n\n\n[^1]: Note text" := by
  refine ⟨fun children t s => pyStrip_noEdge _, fun refs => rfl, ?_⟩
  rfl

/-- C6 counterexample: on a one-paragraph document with one footnote the
output contains a two-blank-line gap around the `---` separator, so blocks
are not separated by exactly one blank line throughout. -/
theorem C6_counterexample :
    convert_html_to_markdown exDocC6 none none
      = "Hello\n\n\n---\n\n\n[^1]: Note text" ∧
    hasSubStr ("\n\n\n") (convert_html_to_markdown exDocC6 none none) = true :=
  ⟨rfl, rfl⟩

theorem sortedKeys_sorted (refs : Reg) :
    List.Sorted (fun a b => a ≤ b) (sortedKeys refs) :=
  List.sorted_insertionSort _ _

theorem sortedKeys_perm (refs : Reg) :
    (sortedKeys refs).Perm (refs.map Prod.fst) :=
  List.perm_insertionSort _ _

/-- C1: when the final footnote registry is non-empty, the conversion ends
with the footnote block: the sorted key list is strictly ascending in
numeric order, is a permutation of the registered numerals, and the output
is the stripped blank-line join of the body blocks followed by the
separator block and one `[^n]: content` line per key. -/
theorem C1_footnotes_sorted (children : List Node) (t s : Option String)
    (h : docRefs children t s ≠ []) : footnotesSortedProp children t s := by
  refine ⟨?_, sortedKeys_perm _, ?_⟩
  · have hnd : ((docRefs children t s).map Prod.fst).Nodup :=
      convertLoop_nodup children (headerLines t s) [] 1 (by simp)
    have hnd2 : (sortedKeys (docRefs children t s)).Nodup :=
      ((sortedKeys_perm _).nodup_iff).mpr hnd
    exact (sortedKeys_sorted _).lt_of_le hnd2
  · have hne : ¬ (((convertLoop children (headerLines t s) [] 1).2).isEmpty = true) := by
      rw [List.isEmpty_iff]
      exact h
    unfold convert_html_to_markdown convertAux
    rw [if_neg hne]
    rfl

theorem C1_footnotes_sorted_witness :
    docRefs exDocC1 none none ≠ [] ∧ footnotesSortedProp exDocC1 none none :=
  ⟨by decide, C1_footnotes_sorted exDocC1 none none (by decide)⟩

/-- C3: the Element Transducer is total: element kinds other than the
recognized block kinds produce no output and leave the registry unchanged
(rather than raising — the embedding is a total function); a blockquote
with no paragraph children degrades to an empty block; an image-container
division with no image leaf produces no output. -/
theorem C3_total_dispatch :
    (∀ (nm : String) (cls : List String) (attrs : List (String × String))
        (cs : List Node) (refs : Reg) (k : Nat),
        ¬ nm ∈ (["h1", "h2", "h3", "p", "blockquote", "div"] : List String) →
        process_element (.elem nm cls attrs cs) refs k = (none, refs)) ∧
    (∀ (cls : List String) (attrs : List (String × String)) (cs : List Node)
        (refs : Reg) (k : Nat),
        cs.all (fun c => !isPElem c) = true →
        process_element (.elem ("blockquote") cls attrs cs) refs k
          = (some (""), refs)) ∧
    (∀ (cls : List String) (attrs : List (String × String)) (cs : List Node)
        (refs : Reg) (k : Nat),
        cls.contains ("captioned-image-container") = true →
        findList (nodeMatch ("img") none) cs = none →
        process_element (.elem ("div") cls attrs cs) refs k = (none, refs)) := by
  refine ⟨?_, ?_, ?_⟩
  · intro nm cls attrs cs refs k hmem
    simp only [List.mem_cons, List.not_mem_nil, or_false, not_or] at hmem
    obtain ⟨h1, h2, h3, h4, h5, h6⟩ := hmem
    simp [process_element, h1, h2, h3, h4, h5, h6]
  · intro cls attrs cs refs k hall
    have hlines : blockquoteLines cs refs k = [] := by
      rw [blockquoteLines, List.filterMap_eq_nil_iff]
      intro c hc
      have hp : isPElem c = false := by
        have := List.all_eq_true.mp hall c hc
        simpa using this
      cases c with
      | text _ => rfl
      | elem nm2 cls2 attrs2 cs2 =>
        have : (nm2 == ("p")) = false := by simpa [isPElem] using hp
        simp [this]
    simp only [process_element, hlines]
    rfl
  · intro cls attrs cs refs k hcls himg
    have hmem : ("captioned-image-container") ∈ cls := by simpa using hcls
    simp [process_element, hmem, handle_image, himg, Node.children]

theorem litMatch_iff (lit : List Char) :
    ∀ (l : List Char), litMatch lit l = true ↔ ∃ rest, l = lit ++ rest := by
  induction lit with
  | nil =>
    intro l
    simp only [litMatch, List.nil_append, true_iff]
    exact ⟨l, rfl⟩
  | cons a as ih =>
    intro l
    cases l with
    | nil =>
      constructor
      · intro h; simp [litMatch] at h
      · rintro ⟨rest, h⟩; simp at h
    | cons b bs =>
      constructor
      · intro h
        simp only [litMatch, Bool.and_eq_true, decide_eq_true_eq] at h
        obtain ⟨hab, hrest⟩ := h
        obtain ⟨rest, hr⟩ := (ih bs).mp hrest
        exact ⟨rest, by rw [hab, hr]; rfl⟩
      · rintro ⟨rest, hr⟩
        rw [List.cons_append] at hr
        injection hr with h1 h2
        subst h1
        simp only [litMatch, Bool.and_eq_true, decide_eq_true_eq]
        refine ⟨?_, (ih bs).mpr ⟨rest, h2⟩⟩
        first
        | rfl
        | trivial

theorem searchNum_some (lit : List Char) :
    ∀ (l ds : List Char), searchNum lit l = some ds →
      ds ≠ [] ∧ (∀ c ∈ ds, c.isDigit = true) ∧
        ∃ pre post, l = pre ++ lit ++ ds ++ post := by
  intro l
  induction l with
  | nil => intro ds h; simp [searchNum] at h
  | cons c rest ih =>
    intro ds h
    rw [searchNum] at h
    by_cases hm : litMatch lit (c :: rest) = true
    · rw [if_pos hm] at h
      by_cases he : (((c :: rest).drop lit.length).takeWhile Char.isDigit).isEmpty = true
      · rw [if_pos he] at h
        obtain ⟨hne, hdig, pre, post, hdec⟩ := ih ds h
        refine ⟨hne, hdig, c :: pre, post, ?_⟩
        rw [hdec]
        rfl
      · rw [if_neg he] at h
        have hds : ds = ((c :: rest).drop lit.length).takeWhile Char.isDigit :=
          (Option.some.inj h).symm
        obtain ⟨restl, hr⟩ := (litMatch_iff lit _).mp hm
        have hdrop : (c :: rest).drop lit.length = restl := by
          rw [hr]; exact List.drop_left _ _
        refine ⟨?_, ?_, [], restl.dropWhile Char.isDigit, ?_⟩
        · intro hnil
          rw [hnil] at hds
          rw [← hds] at he
          exact he rfl
        · intro x hx
          rw [hds] at hx
          exact List.mem_takeWhile_imp hx
        · rw [List.nil_append, hr, hds, hdrop, List.append_assoc,
            List.takeWhile_append_dropWhile]
    · rw [if_neg hm] at h
      obtain ⟨hne, hdig, pre, post, hdec⟩ := ih ds h
      refine ⟨hne, hdig, c :: pre, post, ?_⟩
      rw [hdec]
      rfl

theorem searchNum_none (lit : List Char) :
    ∀ (l : List Char), searchNum lit l = none →
      ¬ ∃ pre d post, l = pre ++ lit ++ d :: post ∧ d.isDigit = true := by
  intro l
  induction l with
  | nil =>
    rintro _ ⟨pre, d, post, hdec, _⟩
    have := congrArg List.length hdec
    simp at this
    omega
  | cons c rest ih =>
    rintro h ⟨pre, d, post, hdec, hd⟩
    rw [searchNum] at h
    cases pre with
    | nil =>
      rw [List.nil_append] at hdec
      have hm : litMatch lit (c :: rest) = true :=
        (litMatch_iff _ _).mpr ⟨d :: post, hdec⟩
      rw [if_pos hm] at h
      have hdrop : (c :: rest).drop lit.length = d :: post := by
        rw [hdec]; exact List.drop_left _ _
      rw [hdrop] at h
      simp [List.takeWhile_cons, hd] at h
    | cons p ps =>
      have hrest : searchNum lit rest = none := by
        by_cases hm : litMatch lit (c :: rest) = true
        · rw [if_pos hm] at h
          by_cases he : (((c :: rest).drop lit.length).takeWhile Char.isDigit).isEmpty = true
          · rw [if_pos he] at h; exact h
          · rw [if_neg he] at h; cases h
        · rw [if_neg hm] at h; exact h
      apply ih hrest
      injection hdec with h1 h2
      exact ⟨ps, d, post, h2, hd⟩

/-- C4: for a link child marked as a footnote anchor, if the target
reference contains `#footnote-` followed by digits then the extractor
emits exactly `[^digits]` (non-empty, all digits); otherwise the anchor
contributes nothing (and the target then contains no occurrence of
`#footnote-` followed by a digit). -/
theorem C4_footnote_anchor (cls : List String) (attrs : List (String × String))
    (cs : List Node) (refs : Reg) (k : Nat)
    (hc : cls.contains ("footnote-anchor") = true) :
    (∀ ds, searchNum anchorPat.toList ((attrGet attrs ("href") (""))).toList = some ds →
      inlineChild (.elem ("a") cls attrs cs) refs k = "[^" ++ String.mk ds ++ "]" ∧
      ds ≠ [] ∧ (∀ c ∈ ds, c.isDigit = true) ∧
      ∃ pre post, ((attrGet attrs ("href") (""))).toList
        = pre ++ anchorPat.toList ++ ds ++ post) ∧
    (searchNum anchorPat.toList ((attrGet attrs ("href") (""))).toList = none →
      inlineChild (.elem ("a") cls attrs cs) refs k = "" ∧
      ¬ ∃ pre d post, ((attrGet attrs ("href") (""))).toList
        = pre ++ anchorPat.toList ++ d :: post ∧ d.isDigit = true) := by
  have hmem : ("footnote-anchor") ∈ cls := by simpa using hc
  constructor
  · intro ds hsome
    obtain ⟨hne, hdig, pre, post, hdec⟩ := searchNum_some _ _ _ hsome
    refine ⟨?_, hne, hdig, pre, post, hdec⟩
    have hsome' : searchNum anchorPat.data (attrGet attrs ("href") ("")).data
        = some ds := hsome
    simp [inlineChild, hmem, hsome']
  · intro hnone
    refine ⟨?_, searchNum_none _ _ hnone⟩
    have hnone' : searchNum anchorPat.data (attrGet attrs ("href") ("")).data
        = none := hnone
    simp [inlineChild, hmem, hnone']

/-- C5 counterexample: a footnote-definition division with an extractable
numeral (the pattern matches digits `1`) but no footnote-content
sub-division stores nothing: the registry stays empty, so nothing is
stored under the extracted numeral. -/
theorem C5_counterexample :
    findList (nodeMatch ("a") (some ("footnote-number"))) exFnNoContent.children
      = some exFnNumLink ∧
    searchNum defPat.toList ((exFnNumLink.attr ("href") (""))).toList
      = some [('1')] ∧
    (handle_footnote_definition exFnNoContent [] 1).2 = [] ∧
    regGet (handle_footnote_definition exFnNoContent [] 1).2 1 = none :=
  ⟨rfl, rfl, rfl, rfl⟩

/-- C5 (corrected): the Footnote Handler always renders nothing; when no
footnote-number link is found, or no numeral is extractable, or the
footnote-content sub-division is missing, the call is a no-op on the
registry; when a numeral is extractable and the content division is
present, the trimmed inline-rendered content is stored under the numeral,
overwriting any prior entry (last-write-wins), and all other numerals keep
their previous value. -/
theorem C5_registry_update (e : Node) (refs : Reg) (k : Nat) :
    ((handle_footnote_definition e refs k).1 = none) ∧
    (findList (nodeMatch ("a") (some ("footnote-number"))) e.children = none →
      handle_footnote_definition e refs k = (none, refs)) ∧
    (∀ fn, findList (nodeMatch ("a") (some ("footnote-number"))) e.children = some fn →
      searchNum defPat.toList ((fn.attr ("href") (""))).toList = none →
      handle_footnote_definition e refs k = (none, refs)) ∧
    (∀ fn ds,
      findList (nodeMatch ("a") (some ("footnote-number"))) e.children = some fn →
      searchNum defPat.toList ((fn.attr ("href") (""))).toList = some ds →
      findList (nodeMatch ("div") (some ("footnote-content"))) e.children = none →
      handle_footnote_definition e refs k = (none, refs)) ∧
    (∀ fn ds ce,
      findList (nodeMatch ("a") (some ("footnote-number"))) e.children = some fn →
      searchNum defPat.toList ((fn.attr ("href") (""))).toList = some ds →
      findList (nodeMatch ("div") (some ("footnote-content"))) e.children = some ce →
      handle_footnote_definition e refs k
        = (none, regInsert refs (digitsToNat ds)
            (pyStrip (get_text_content ce [] k))) ∧
      regGet (handle_footnote_definition e refs k).2 (digitsToNat ds)
        = some (pyStrip (get_text_content ce [] k)) ∧
      (∀ m, m ≠ digitsToNat ds →
        regGet (handle_footnote_definition e refs k).2 m = regGet refs m)) := by
  refine ⟨?_, ?_, ?_, ?_, ?_⟩
  · unfold handle_footnote_definition
    split
    · rfl
    · split
      · rfl
      · split
        · rfl
        · rfl
  · intro h
    simp only [handle_footnote_definition, h]
  · intro fn h1 h2
    simp only [handle_footnote_definition, h1, h2]
  · intro fn ds h1 h2 h3
    simp only [handle_footnote_definition, h1, h2, h3]
  · intro fn ds ce h1 h2 h3
    have heq : handle_footnote_definition e refs k
        = (none, regInsert refs (digitsToNat ds)
            (pyStrip (get_text_content ce [] k))) := by
      simp only [handle_footnote_definition, h1, h2, h3]
    refine ⟨heq, ?_, ?_⟩
    · rw [heq]
      exact regGet_regInsert_self _ _ _
    · intro m hm
      rw [heq]
      exact regGet_regInsert_ne _ _ _ _ hm

/-- C5 witness for the amended claim, at a concrete definition division
overwriting a prior entry for numeral 1. -/
theorem C5_registry_update_witness :
    handle_footnote_definition (mkFnDiv ("#footnote-anchor-1") ("Note text"))
        [(1, ("old"))] 1
      = (none, regInsert [(1, ("old"))] 1 ("Note text")) ∧
    regGet (handle_footnote_definition (mkFnDiv ("#footnote-anchor-1") ("Note text"))
        [(1, ("old"))] 1).2 1 = some ("Note text") := by
  have h := (C5_registry_update (mkFnDiv ("#footnote-anchor-1") ("Note text"))
      [(1, ("old"))] 1).2.2.2.2 exFnNumLink [('1')] exFnContent rfl rfl rfl
  exact ⟨h.1, h.2.1⟩

theorem C4_footnote_anchor_witness :
    (([("footnote-anchor")] : List String).contains ("footnote-anchor") = true) ∧
    ((∀ ds, searchNum anchorPat.toList
        ((attrGet [(("href"), ("#footnote-7"))] ("href") (""))).toList = some ds →
      inlineChild (.elem ("a") [("footnote-anchor")] [(("href"), ("#footnote-7"))]
          [.text ("7")]) [] 1 = "[^" ++ String.mk ds ++ "]" ∧
      ds ≠ [] ∧ (∀ c ∈ ds, c.isDigit = true) ∧
      ∃ pre post, ((attrGet [(("href"), ("#footnote-7"))] ("href") (""))).toList
        = pre ++ anchorPat.toList ++ ds ++ post) ∧
    (searchNum anchorPat.toList
        ((attrGet [(("href"), ("#footnote-7"))] ("href") (""))).toList = none →
      inlineChild (.elem ("a") [("footnote-anchor")] [(("href"), ("#footnote-7"))]
          [.text ("7")]) [] 1 = "" ∧
      ¬ ∃ pre d post, ((attrGet [(("href"), ("#footnote-7"))] ("href") (""))).toList
        = pre ++ anchorPat.toList ++ d :: post ∧ d.isDigit = true)) :=
  ⟨rfl, C4_footnote_anchor [("footnote-anchor")] [(("href"), ("#footnote-7"))]
    [.text ("7")] [] 1 rfl⟩


theorem imageSrc_spec (e : Node) (src : String) :
    imageSrc e src = specResolvedSrc
      ((findList (nodeMatch ("a") (some ("image-link"))) e.children).map
        (fun l => l.attr ("href") (""))) src := by
  unfold imageSrc specResolvedSrc
  rcases hl : findList (nodeMatch ("a") (some ("image-link"))) e.children with _ | l
  · rfl
  · simp only [Option.map_some']
    by_cases ht : strTruthy (l.attr ("href") ("")) = true
    · simp only [ht, Bool.true_and, Bool.and_true]
    · have hh : l.attr ("href") ("") = "" := by
        have : (l.attr ("href") ("")).isEmpty = true := by
          simpa [strTruthy] using ht
        exact (String.isEmpty_iff _).mp this
      rw [hh]
      have h1 : hasSubStr ("substackcdn.com") ("") = false := rfl
      have h2 : strTruthy ("") = false := rfl
      simp [h1, h2]

/-- C2: for every image-container element with an image leaf, the emitted
image line uses the three-branch resolved-source rule stated by the spec
(`specResolvedSrc`): the wrapping image-link target when it contains the
content-delivery marker; else the target when the leaf source contains the
interim-storage marker and the target is non-empty; else the leaf source. -/
theorem C2_image_src (e : Node) (i : Node)
    (hi : findList (nodeMatch ("img") none) e.children = some i) :
    ∃ tail, tail.toList.head? = some (')') ∧
      handle_image e = some ("![" ++ i.attr ("alt") ("") ++ "](" ++
        specResolvedSrc
          ((findList (nodeMatch ("a") (some ("image-link"))) e.children).map
            (fun l => l.attr ("href") ("")))
          (i.attr ("src") ("")) ++ tail) := by
  rw [← imageSrc_spec]
  rcases hc : findList (nodeMatch ("figcaption") none) e.children with _ | cap
  · refine ⟨")", rfl, ?_⟩
    simp only [handle_image, hi, hc]
  · rcases hcl : findList (nodeMatch ("a") none) cap.children with _ | cl
    · refine ⟨")\n*" ++ getAllText cap ++ "*", rfl, ?_⟩
      simp only [handle_image, hi, hc, hcl]
      simp [String.append_assoc]
    · refine ⟨")\n*[" ++ getAllText cl ++ "](" ++ cl.attr ("href") ("") ++ ")*",
        rfl, ?_⟩
      simp only [handle_image, hi, hc, hcl]
      simp [String.append_assoc]

/-- C2 witness: an image whose leaf source is an interim-storage
(bucketeer) URL and whose wrapping link target is a substackcdn URL emits
the substackcdn URL. -/
theorem C2_image_src_witness :
    (findList (nodeMatch ("img") none) exImgDiv.children = some exImgLeaf) ∧
    (∃ tail, tail.toList.head? = some (')') ∧
      handle_image exImgDiv = some ("![" ++ exImgLeaf.attr ("alt") ("") ++ "](" ++
        specResolvedSrc
          ((findList (nodeMatch ("a") (some ("image-link"))) exImgDiv.children).map
            (fun l => l.attr ("href") ("")))
          (exImgLeaf.attr ("src") ("")) ++ tail)) ∧
    handle_image exImgDiv = some ("![](https://substackcdn.com/image.png)") :=
  ⟨rfl, C2_image_src exImgDiv exImgLeaf rfl, rfl⟩


theorem addToBucket_map_fst (bs : Buckets) (q : String) (r : PostRow) :
    (addToBucket bs q r).map Prod.fst =
      if (bs.map Prod.fst).contains q then bs.map Prod.fst
      else bs.map Prod.fst ++ [q] := by
  unfold addToBucket
  split
  · rw [List.map_map]
    refine List.map_eq_map_iff.mpr ?_
    intro p _
    simp only [Function.comp_apply]
    split <;> rfl
  · simp

theorem addToBucket_nodup (bs : Buckets) (q : String) (r : PostRow)
    (h : (bs.map Prod.fst).Nodup) :
    ((addToBucket bs q r).map Prod.fst).Nodup := by
  rw [addToBucket_map_fst]
  split
  · exact h
  · next hc =>
    have hq : q ∉ bs.map Prod.fst := by
      intro hm
      exact hc (List.elem_iff.mpr hm)
    simp [List.nodup_append, h, hq]

theorem filter_key_nil (bs : Buckets) (q : String)
    (h : ¬ (bs.map Prod.fst).contains q = true) :
    bs.filter (fun p => p.1 == q) = [] := by
  rw [List.filter_eq_nil_iff]
  intro p hp hpq
  apply h
  apply List.elem_iff.mpr
  exact List.mem_map.mpr ⟨p, hp, by simpa using hpq⟩

theorem filter_key_single (bs : Buckets) (q : String)
    (hnd : (bs.map Prod.fst).Nodup) :
    bs.filter (fun p => p.1 == q) = [] ∨
      ∃ p, bs.filter (fun p => p.1 == q) = [p] := by
  induction bs with
  | nil => exact Or.inl rfl
  | cons x xs ih =>
    rw [List.map_cons, List.nodup_cons] at hnd
    obtain ⟨hx, hxs⟩ := hnd
    simp only [List.filter_cons]
    by_cases hq : (x.1 == q) = true
    · right
      refine ⟨x, ?_⟩
      rw [if_pos hq]
      have hnil : xs.filter (fun p => p.1 == q) = [] := by
        apply filter_key_nil
        intro hc
        apply hx
        have hxq : x.1 = q := by simpa using hq
        rw [hxq]
        exact List.elem_iff.mp hc
      rw [hnil]
    · rw [if_neg hq]
      exact ih hxs

theorem bucketGet_addToBucket (bs : Buckets) (qr : String) (r : PostRow)
    (q : String) (hnd : (bs.map Prod.fst).Nodup) :
    bucketGet (addToBucket bs qr r) q =
      if (qr == q) = true then bucketGet bs q ++ [r] else bucketGet bs q := by
  unfold addToBucket
  by_cases hc : (bs.map Prod.fst).contains qr = true
  · rw [if_pos hc]
    unfold bucketGet
    rw [List.filter_map]
    have hpred : ∀ p : String × List PostRow,
        ((fun p => p.1 == q) ∘ fun p =>
          if (p.1 == qr) = true then (p.1, p.2 ++ [r]) else p) p
          = (fun (p : String × List PostRow) => p.1 == q) p := by
      intro p
      simp only [Function.comp_apply]
      split <;> rfl
    rw [List.filter_congr (fun p _ => hpred p)]
    by_cases hq : (qr == q) = true
    · rw [if_pos hq]
      have hqq : qr = q := by simpa using hq
      rcases filter_key_single bs q hnd with hnil | ⟨p, hp⟩
      · exfalso
        have hmem : qr ∈ bs.map Prod.fst := List.elem_iff.mp hc
        rcases List.mem_map.mp hmem with ⟨p, hpmem, hpq⟩
        rw [List.filter_eq_nil_iff] at hnil
        exact hnil p hpmem (by simp [hpq, hqq])
      · have hpq : (p.1 == qr) = true := by
          have hpmem : p ∈ bs.filter (fun p => p.1 == q) := by rw [hp]; simp
          have := List.of_mem_filter hpmem
          simp only [beq_iff_eq] at this ⊢
          rw [this, hqq]
        rw [hp]
        simp only [List.map_cons, List.map_nil, if_pos hpq, List.flatten_cons,
          List.flatten_nil, List.append_nil]
    · rw [if_neg hq]
      have hfix : ∀ p ∈ bs.filter (fun p => p.1 == q),
          (if (p.1 == qr) = true then (p.1, p.2 ++ [r]) else p) = id p := by
        intro p hp
        have hpmem := List.of_mem_filter hp
        have hpq : p.1 = q := by simpa using hpmem
        have hne : (p.1 == qr) = false := by
          simp only [hpq]
          have : ¬ q = qr := by
            intro he
            apply hq
            simp [he]
          simpa using this
        rw [hne]
        rfl
      rw [List.map_congr_left hfix, List.map_id]
  · rw [if_neg hc]
    unfold bucketGet
    rw [List.filter_append]
    by_cases hq : (qr == q) = true
    · rw [if_pos hq]
      have hqq : qr = q := by simpa using hq
      subst hqq
      have hnil : bs.filter (fun p => p.1 == qr) = [] := filter_key_nil bs qr hc
      rw [hnil]
      simp [List.filter_cons]
    · rw [if_neg hq]
      have hne : ((qr : String) == q) = false := by simpa using hq
      simp [List.filter_cons, hne]

theorem groupRows_go :
    ∀ (rows : List PostRow) (bs : Buckets), (bs.map Prod.fst).Nodup →
      (((rows.foldl (fun bs r => addToBucket bs (get_quarter r.post_date) r) bs)).map
        Prod.fst).Nodup ∧
      ∀ q, bucketGet
          (rows.foldl (fun bs r => addToBucket bs (get_quarter r.post_date) r) bs) q
        = bucketGet bs q ++ rows.filter (fun r => get_quarter r.post_date == q) := by
  intro rows
  induction rows with
  | nil =>
    intro bs h
    exact ⟨h, fun q => by simp⟩
  | cons r rest ih =>
    intro bs h
    rw [List.foldl_cons]
    obtain ⟨hn, hb⟩ := ih (addToBucket bs (get_quarter r.post_date) r)
      (addToBucket_nodup bs _ r h)
    refine ⟨hn, fun q => ?_⟩
    rw [hb q, bucketGet_addToBucket bs _ r q h]
    by_cases hq : (get_quarter r.post_date == q) = true
    · rw [if_pos hq]
      simp only [List.filter_cons, if_pos hq]
      simp
    · rw [if_neg hq]
      simp only [List.filter_cons, if_neg hq]

theorem groupRows_nodup (rows : List PostRow) :
    ((groupRows rows).map Prod.fst).Nodup :=
  (groupRows_go rows [] (by simp)).1

theorem bucketGet_groupRows (rows : List PostRow) (q : String) :
    bucketGet (groupRows rows) q
      = rows.filter (fun r => get_quarter r.post_date == q) := by
  have := (groupRows_go rows [] (by simp)).2 q
  simpa [bucketGet] using this

theorem bucketGet_load (rows : List PostRow) (q : String) :
    bucketGet (load_posts_by_quarter rows) q =
      List.insertionSort (fun a b => a.post_date ≤ b.post_date)
        (bucketGet (groupRows rows) q) := by
  unfold load_posts_by_quarter bucketGet
  rw [List.filter_map]
  have hpred : ∀ p : String × List PostRow,
      ((fun p => p.1 == q) ∘ fun p =>
        (p.1, List.insertionSort (fun a b => a.post_date ≤ b.post_date) p.2)) p
        = (fun (p : String × List PostRow) => p.1 == q) p := fun p => rfl
  rw [List.filter_congr (fun p _ => hpred p)]
  rcases filter_key_single (groupRows rows) q (groupRows_nodup rows) with hnil | ⟨p, hp⟩
  · rw [hnil]
    rfl
  · rw [hp]
    simp

/-- C9: the quarterly batcher files every row under the bucket named by
`get_quarter` (year plus `(month-1)/3+1`), each bucket is the date-sorted
filter of the input rows, the bucket list is sorted ascending by date, and
the quarter file is the header followed by the posts joined with the
80-character `=` separator between consecutive posts. -/
theorem C9_quarter_batches :
    (∀ (rows : List PostRow) (q : String),
      bucketGet (load_posts_by_quarter rows) q =
        List.insertionSort (fun a b => a.post_date ≤ b.post_date)
          (rows.filter (fun r => get_quarter r.post_date == q)) ∧
      List.Sorted (fun (a b : PostRow) => a.post_date ≤ b.post_date)
        (bucketGet (load_posts_by_quarter rows) q)) ∧
    (∀ (posts : List PostRow) (content : String → String) (q : String),
      quarterFile q posts content =
        quarterHeader q posts.length ++
          sepJoin (posts.map (fun r => content r.post_id))) ∧
    eqSep.toList = List.replicate 80 ('=') ∧
    (∀ s, get_quarter s = toString (dateYear s) ++ "-Q" ++
      toString ((dateMonth s - 1) / 3 + 1)) := by
  have hwp : ∀ (cs : List String), writePosts cs 1 = sepJoin cs := by
    have h2 : ∀ (cs : List String) (c : String) (i : Nat), 2 ≤ i →
        writePosts (c :: cs) i = postSep ++ sepJoin (c :: cs) := by
      intro cs
      induction cs with
      | nil =>
        intro c i hi
        have : (1 < i) = True := by simp; omega
        simp [writePosts, sepJoin, this]
      | cons c2 cs ih =>
        intro c i hi
        have hlt : (1 < i) = True := by simp; omega
        rw [writePosts, if_pos (by omega)]
        rw [ih c2 (i + 1) (by omega)]
        show postSep ++ c ++ (postSep ++ sepJoin (c2 :: cs))
          = postSep ++ sepJoin (c :: c2 :: cs)
        rw [sepJoin]
        simp [String.append_assoc]
    intro cs
    cases cs with
    | nil => rfl
    | cons c rest =>
      rw [writePosts, if_neg (by omega)]
      cases rest with
      | nil =>
        show "" ++ c ++ writePosts [] 2 = sepJoin [c]
        simp [writePosts, sepJoin]
      | cons c2 cs =>
        rw [h2 cs c2 2 (by omega)]
        show "" ++ c ++ (postSep ++ sepJoin (c2 :: cs)) = sepJoin (c :: c2 :: cs)
        rw [sepJoin]
        simp [String.append_assoc]
  refine ⟨?_, ?_, rfl, fun s => rfl⟩
  · intro rows q
    have h1 : bucketGet (load_posts_by_quarter rows) q =
        List.insertionSort (fun a b => a.post_date ≤ b.post_date)
          (rows.filter (fun r => get_quarter r.post_date == q)) := by
      rw [bucketGet_load, bucketGet_groupRows]
    refine ⟨h1, ?_⟩
    rw [h1]
    exact List.sorted_insertionSort _ _
  · intro posts content q
    unfold quarterFile
    rw [hwp]

end Substack
